import Mathlib

/-!
Shallow embedding of the titiler HTTP middleware pipeline:
`src/titiler/core/titiler/core/middleware.py` (the five middleware
classes) together with their registration in
`src/titiler/application/titiler/application/main.py`.

Modelling conventions:
* ASGI `http.response.start` messages are a status code plus a raw
  header list; header lookup and mutation follow starlette's
  `Headers` / `MutableHeaders` semantics (case-insensitive keys,
  first match wins on read, replace-first-and-drop-rest on write).
* Python string truthiness (`None` and `""` falsy) is made explicit.
* Clock readings, the rasterio probe and the logging sink are
  parameters of the corresponding functions, so that each middleware
  body is a pure function of its inputs.
-/

/-- Python `str.lower()` (faithful on ASCII, where all the strings the
middlewares compare live; Lean's `Char.toLower` maps `A`-`Z` to
`a`-`z` and leaves every other character unchanged). Defined over the
character list so that it reduces inside the kernel. -/
def lowerStr (s : String) : String :=
  String.mk (s.data.map Char.toLower)

/-- Python truthiness of an optional string: `None` and `""` are falsy,
every non-empty string is truthy. -/
def pyTruthy : Option String → Bool
  | none => false
  | some s => !s.data.isEmpty

/-- Case-insensitive header lookup, first match wins: starlette
`Headers.__getitem__` scans the raw header list and returns the first
value whose key matches the lower-cased lookup key. -/
def headerGet (hs : List (String × String)) (name : String) : Option String :=
  (hs.find? (fun kv => lowerStr kv.1 == lowerStr name)).map (fun kv => kv.2)

/-- Helper for `setHeader`: replace the first occurrence of the
(lower-cased) key, dropping any later duplicates; append if absent. -/
def setHeaderAux (lname v : String) : List (String × String) → List (String × String)
  | [] => [(lname, v)]
  | kv :: rest =>
    if lowerStr kv.1 == lname then
      (lname, v) :: rest.filter (fun kv2 => lowerStr kv2.1 != lname)
    else
      kv :: setHeaderAux lname v rest

/-- starlette `MutableHeaders.__setitem__`: the stored key is
lower-cased, the first existing occurrence is overwritten in place,
later duplicates are removed, and a missing key is appended. -/
def setHeader (hs : List (String × String)) (name v : String) : List (String × String) :=
  setHeaderAux (lowerStr name) v hs

/-- An ASGI `http.response.start` message: status code and raw headers. -/
structure StartMessage where
  status : Nat
  headers : List (String × String)
deriving DecidableEq

/-! ## BlockVRTMiddleware (middleware.py lines 172-204) -/

/-- Result of `rasterio.open(url, sharing=...)` followed by reading
`src.driver`: `opened d` when the open succeeds and reports driver `d`,
`failed` when it raises any exception (missing file, unsupported
scheme, permission error, corrupt data, ...). -/
inductive ProbeResult where
  | opened (driver : String)
  | failed
deriving DecidableEq

/-- A starlette `Response` as constructed by the guard: body content,
status code, and the `media_type` argument (`none` when not passed). -/
structure GuardResponse where
  body : String
  status : Nat
  mediaType : Option String
deriving DecidableEq

/-- Outcome of `BlockVRTMiddleware.dispatch`: either a short-circuit
response of its own, or pass-through to `call_next` (the continuation). -/
inductive DispatchResult where
  | response (r : GuardResponse)
  | passthrough
deriving DecidableEq

/-- Substring containment on character lists (Python `needle in hay`). -/
def listContainsSub (needle : List Char) : List Char → Bool
  | [] => needle.isEmpty
  | c :: rest => needle.isPrefixOf (c :: rest) || listContainsSub needle rest

/-- Python substring test `needle in hay` on strings. -/
def strContainsSub (hay needle : String) : Bool :=
  listContainsSub needle.toList hay.toList

/-- `BlockVRTMiddleware.dispatch` (middleware.py lines 174-204) as a
pure function. `urlParam` is `request.query_params.get("url")`
(absent ↦ default `""`); `probe url sharing` models
`rasterio.open(url, sharing=sharing)` plus the read of `src.driver`.
The two rejection responses are built with starlette's default
`media_type=None`. -/
def blockVRTDispatch (path : String) (urlParam : Option String)
    (probe : String → Bool → ProbeResult) : DispatchResult :=
  if strContainsSub (lowerStr path) ".vrt" then
    .response ⟨"VRT files are not supported.", 403, none⟩
  else
    let url_param := lowerStr (urlParam.getD "")
    if strContainsSub url_param ".vrt" then
      .response ⟨"VRT files are not supported in URL parameters.", 403, none⟩
    else
      match probe url_param false with
      | .opened d =>
        if d == "VRT" then
          .response ⟨"VRT files are not supported in URL parameters.", 403, none⟩
        else
          .passthrough
      | .failed => .passthrough

/-- Content-Type header computed by starlette `Response.init_headers`
from the response `media_type` (class charset `"utf-8"`): no header at
all when the media type is `None`; a `text/*` media type without an
explicit charset gets `; charset=utf-8` appended. -/
def responseContentType (r : GuardResponse) : Option String :=
  match r.mediaType with
  | none => none
  | some mt =>
    if List.isPrefixOf "text/".data mt.data && !(strContainsSub mt "charset=") then
      some (mt ++ "; charset=utf-8")
    else
      some mt

/-- A probe that always fails to open the resource. -/
def probeNever : String → Bool → ProbeResult := fun _ _ => .failed

/-- A probe that always opens successfully and reports driver "VRT". -/
def probeVRT : String → Bool → ProbeResult := fun _ _ => .opened "VRT"

/-- A probe that always opens successfully and reports driver "GTiff". -/
def probeGTiff : String → Bool → ProbeResult := fun _ _ => .opened "GTiff"

/-! ## CacheControlMiddleware (middleware.py lines 16-64) -/

/-- Constructor arguments of `CacheControlMiddleware`
(middleware.py lines 19-37): the Cache-Control string (optional), the
exclusive status-code upper bound (default 500), and the set of path
patterns to exclude. -/
structure CCConfig where
  cachecontrol : Option String
  cachecontrol_max_http_code : Nat
  exclude_path : List String

/-- Python `re.match pat s` for a pattern containing no regex
metacharacters — the only kind the application configures
(main.py line 165 registers `global_prefix + "/healthz"`, a literal).
Such a pattern matches iff it occurs at the very start of the subject,
i.e. iff it is a string prefix of the subject. -/
def reMatchLiteral (pat s : String) : Bool :=
  List.isPrefixOf pat.data s.data

/-- `CacheControlMiddleware.send_wrapper` acting on an
`http.response.start` message (middleware.py lines 45-62), as a pure
function of the request method and path captured from the scope. -/
def cacheControlSend (cfg : CCConfig) (method path : String) (m : StartMessage) :
    StartMessage :=
  if pyTruthy cfg.cachecontrol && !(pyTruthy (headerGet m.headers "Cache-Control")) then
    if (method == "HEAD" || method == "GET")
        && decide (m.status < cfg.cachecontrol_max_http_code)
        && !(cfg.exclude_path.any (fun p => reMatchLiteral p path)) then
      { m with headers := setHeader m.headers "Cache-Control" (cfg.cachecontrol.getD "") }
    else m
  else m

/-- Eligibility condition of the amended C3 claim, stated in the
spec's vocabulary: no non-empty Cache-Control value already present,
method GET or HEAD, status strictly below the threshold, and no
exclusion pattern matching at the start of the path. -/
def ccEligible (cfg : CCConfig) (method path : String) (m : StartMessage) : Prop :=
  (headerGet m.headers "Cache-Control" = none ∨
    headerGet m.headers "Cache-Control" = some "") ∧
  (method = "GET" ∨ method = "HEAD") ∧
  m.status < cfg.cachecontrol_max_http_code ∧
  ∀ p ∈ cfg.exclude_path, ¬ p.data <+: path.data

instance (cfg : CCConfig) (method path : String) (m : StartMessage) :
    Decidable (ccEligible cfg method path m) := by
  unfold ccEligible
  infer_instance

/-! ## TotalTimeMiddleware (middleware.py lines 67-101) -/

/-- Python `round(q, 2)`: round to two decimal places. Python rounds
floats half-to-even; the claims under verification do not depend on the
tie-breaking direction, so the rational model uses Mathlib's `round`
(half-up). -/
def round2 (q : ℚ) : ℚ :=
  ((round (q * 100) : ℤ) : ℚ) / 100

/-- The `dur` value computed by `TotalTimeMiddleware.send_wrapper`
(middleware.py lines 85-92): `round((t1 - t0) * 1000, 2)` where `t0`
and `t1` are the two `time.time()` readings taken at request entry and
at `http.response.start`. `time.time()` is the system wall clock, so
`t1 < t0` is possible when the clock is stepped backwards between the
two readings. -/
def durMs (t0 t1 : ℚ) : ℚ :=
  round2 ((t1 - t0) * 1000)

/-- The `app_time` entry of middleware.py line 92 — the text
`total;dur=` followed by the rounded value; `fmt` abstracts Python's
decimal rendering of the rounded float. -/
def appTimeEntry (fmt : ℚ → String) (t0 t1 : ℚ) : String :=
  "total;dur=" ++ fmt (durMs t0 t1)

/-- `TotalTimeMiddleware.send_wrapper` on an `http.response.start`
message (middleware.py lines 87-99): compute the `app_time` entry and
set Server-Timing to it, comma-joined after an existing truthy value. -/
def totalTimeSend (t0 t1 : ℚ) (fmt : ℚ → String) (m : StartMessage) : StartMessage :=
  let app_time := appTimeEntry fmt t0 t1
  let timings := headerGet m.headers "Server-Timing"
  { m with
    headers := setHeader m.headers "Server-Timing"
      (if pyTruthy timings then timings.getD "" ++ ", " ++ app_time else app_time) }

/-- A concrete rendering function used to instantiate witnesses. -/
def fmtConst : ℚ → String := fun _ => "1000.0"

/-! ## LoggerMiddleware (middleware.py lines 104-139) -/

/-- Constructor flags of `LoggerMiddleware` (middleware.py lines 107-121). -/
structure LogConfig where
  querystrings : Bool
  headers : Bool

/-- Outcome of one write to the logging sink. -/
inductive SinkResult where
  | ok
  | failed
deriving DecidableEq

/-- `logger.debug msg`: per the Python logging library's contract,
errors raised while a handler emits a record are caught by
`Handler.handleError` and never propagate to the caller, so the call
returns the sink's outcome instead of raising. -/
def loggerDebug (sink : String → SinkResult) (msg : String) : SinkResult :=
  sink msg

/-- The debug messages `LoggerMiddleware.__call__` emits for an http
request (middleware.py lines 127-137): the URL always; the
query-parameter dict when non-empty and `querystrings` is set; the
header dict when `headers` is set. `url`, `qsRepr` and `headersRepr`
abstract `str(request.url)`, `dict(request.query_params)` and
`dict(request.headers)`; `qsNonEmpty` is the truthiness of `qs`. -/
def loggerMessages (cfg : LogConfig) (url qsRepr headersRepr : String)
    (qsNonEmpty : Bool) : List String :=
  [url] ++ (if qsNonEmpty && cfg.querystrings then [qsRepr] else []) ++
    (if cfg.headers then [headersRepr] else [])

/-- `LoggerMiddleware.__call__` (middleware.py lines 125-139): emit the
debug messages through the sink (outcomes discarded), then invoke the
inner app on the very same scope, receive and send: `app` is the inner
application already applied to everything the middleware received, and
`σ`/`ρ` keep the scope and response types abstract. -/
def loggerMiddleware {σ ρ : Type} (cfg : LogConfig) (sink : String → SinkResult)
    (urlOf qsOf hdrOf : σ → String) (qsNonEmpty : σ → Bool)
    (app : σ → ρ) (scope : σ) : ρ :=
  let _ := (loggerMessages cfg (urlOf scope) (qsOf scope) (hdrOf scope)
      (qsNonEmpty scope)).map (loggerDebug sink)
  app scope

/-! ## LowerCaseQueryStringMiddleware (middleware.py lines 142-170) -/

/-- Numeric value of a hexadecimal digit, `none` for any other
character (Python `urllib.parse.unquote` accepts both cases). -/
def hexVal (c : Char) : Option Nat :=
  if '0' ≤ c ∧ c ≤ '9' then some (c.toNat - 48)
  else if 'a' ≤ c ∧ c ≤ 'f' then some (c.toNat - 87)
  else if 'A' ≤ c ∧ c ≤ 'F' then some (c.toNat - 55)
  else none

/-- Fuel-indexed percent-decoding scan; each step consumes at least one
character and one unit of fuel, so any `fuel ≥ l.length` gives the full
decode (the fuel only makes the recursion structural). A valid `%hh`
escape becomes the byte it denotes; an invalid escape emits `%` and
rescans from the next character. -/
def pctDecodeF : Nat → List Char → List Char
  | 0, l => l
  | _ + 1, [] => []
  | fuel + 1, c :: rest =>
    if c = '%' then
      match rest with
      | a :: b :: rest2 =>
        match hexVal a, hexVal b with
        | some x, some y => Char.ofNat (16 * x + y) :: pctDecodeF fuel rest2
        | _, _ => '%' :: pctDecodeF fuel (a :: b :: rest2)
      | _ => '%' :: pctDecodeF fuel rest
    else c :: pctDecodeF fuel rest

/-- Percent-decoding of `urllib.parse.unquote`, one byte per escape
(faithful for ASCII escapes, which is all the theorems below exercise;
Python additionally reassembles consecutive escaped bytes as UTF-8).
An invalid escape is left verbatim. -/
def pctDecode (l : List Char) : List Char :=
  pctDecodeF l.length l

/-- Python `s.replace("+", " ")`, applied by `parse_qsl` to each name
and value before unquoting. -/
def plusToSpace (l : List Char) : List Char :=
  l.map (fun c => if c = '+' then ' ' else c)

/-- `urllib.parse.unquote(part.replace("+", " "))` — the decoding
`parse_qsl` applies to each name and value. -/
def unquotePlus (s : String) : String :=
  String.mk (pctDecode (plusToSpace s.data))

/-- Splitting a segment at the first `=` (Python `split("=", 1)`):
the part before, and the part after when a separator was found. -/
def splitFirstEq : List Char → List Char × Option (List Char)
  | [] => ([], none)
  | c :: rest =>
    if c = '=' then ([], some rest)
    else
      let r := splitFirstEq rest
      (c :: r.1, r.2)

/-- One `name=value` segment of
`urllib.parse.parse_qsl(qs, keep_blank_values=True)`: an empty segment
is dropped; a segment without `=` becomes a pair with empty value;
name and value are plus-and-percent decoded. -/
def parsePairSeg (seg : List Char) : Option (String × String) :=
  if seg.isEmpty then none
  else
    let r := splitFirstEq seg
    some (unquotePlus (String.mk r.1), unquotePlus (String.mk (r.2.getD [])))

/-- Splitting on `&` (Python `qs.split("&")`). -/
def splitAmp : List Char → List (List Char)
  | [] => [[]]
  | c :: rest =>
    let r := splitAmp rest
    if c = '&' then [] :: r
    else
      match r with
      | [] => [[c]]
      | h :: t => (c :: h) :: t

/-- `urllib.parse.parse_qsl(qs, keep_blank_values=True)`, the parser
behind starlette's `QueryParams.multi_items()`: percent- and
plus-decoded ordered pairs, duplicates kept. -/
def parseQsl (qs : String) : List (String × String) :=
  (splitAmp qs.data).filterMap parsePairSeg

/-- The query-string rebuild of
`LowerCaseQueryStringMiddleware.__call__` (middleware.py lines
156-170): concatenate `k.lower() + "=" + v + "&"` over
`request.query_params.multi_items()` and drop the trailing character
(`query_string[:-1]`). No re-encoding of any kind is applied to the
decoded keys and values. -/
def lowerCaseQueryString (qs : String) : String :=
  let q := (parseQsl qs).foldl
    (fun acc kv => acc ++ lowerStr kv.1 ++ "=" ++ kv.2 ++ "&") ""
  String.mk q.data.dropLast

/-- `query_string.encode("latin-1")` (middleware.py line 168): the byte
values of the characters when all are below 256, an encode error
(modelled as `none`) otherwise. -/
def latin1Encode (s : String) : Option (List Nat) :=
  if s.data.all (fun c => c.toNat < 256) then some (s.data.map Char.toNat)
  else none

/-- The bytes the middleware stores into `scope["query_string"]`. -/
def lowerCaseQueryBytes (qs : String) : Option (List Nat) :=
  latin1Encode (lowerCaseQueryString qs)

/-- A character that needs no query-string escaping: not one of the
reserved characters `&`, `=`, `%`, `+`. -/
def plainChar (c : Char) : Bool :=
  !(c == '&' || c == '=' || c == '%' || c == '+')

/-- A character representable in latin-1. -/
def latin1Char (c : Char) : Bool :=
  decide (c.toNat < 256)

/-- Reference join used to state the amended C4 claim: segments
`&`-joined with no trailing separator. -/
def joinSegs : List (List Char) → List Char
  | [] => []
  | s :: rest =>
    match rest with
    | [] => s
    | _ :: _ => s ++ '&' :: joinSegs rest

/-- Reference rendering used to state the amended C4 claim: pairs
rendered `key=value`, `&`-joined, no trailing separator. -/
def joinPairs (ps : List (String × String)) : String :=
  String.mk (joinSegs (ps.map (fun kv => kv.1.data ++ '=' :: kv.2.data)))

/-! ## Claim theorems for the format guard -/

/-- C1: `BlockVRTMiddleware.dispatch` evaluates its checks in order with
first match winning.  If the lower-cased request path contains ".vrt"
it returns a 403 response with body exactly
"VRT files are not supported." without invoking the continuation (the
result is a short-circuit response, and it does not depend on the
probe, which models everything happening after the textual checks).
Otherwise, if the lower-cased `url` query parameter (default `""`)
contains ".vrt", it returns a 403 response with body exactly
"VRT files are not supported in URL parameters.", again without
invoking the continuation. -/
theorem C1_textual_checks_first_match (path : String) (u : Option String)
    (probe : String → Bool → ProbeResult) :
    (strContainsSub (lowerStr path) ".vrt" = true →
      blockVRTDispatch path u probe =
        .response ⟨"VRT files are not supported.", 403, none⟩) ∧
    (strContainsSub (lowerStr path) ".vrt" = false →
     strContainsSub (lowerStr (u.getD "")) ".vrt" = true →
      blockVRTDispatch path u probe =
        .response ⟨"VRT files are not supported in URL parameters.", 403, none⟩) ∧
    ((strContainsSub (lowerStr path) ".vrt" = true ∨
      strContainsSub (lowerStr (u.getD "")) ".vrt" = true) →
      ∀ probe2, blockVRTDispatch path u probe = blockVRTDispatch path u probe2) := by
  refine ⟨?_, ?_, ?_⟩
  · intro h
    simp [blockVRTDispatch, h]
  · intro h1 h2
    simp [blockVRTDispatch, h1, h2]
  · rintro (h | h) probe2
    · simp [blockVRTDispatch, h]
    · by_cases hp : strContainsSub (lowerStr path) ".vrt" <;>
        simp [blockVRTDispatch, hp, h]

/-- C1 witness: concrete evaluations of the two textual rejections,
obtained by applying `C1_textual_checks_first_match`. -/
theorem C1_witness :
    blockVRTDispatch "/cog/preview.VRT" none probeVRT =
      .response ⟨"VRT files are not supported.", 403, none⟩ ∧
    blockVRTDispatch "/cog/preview" (some "http://host/data.VRT") probeVRT =
      .response ⟨"VRT files are not supported in URL parameters.", 403, none⟩ :=
  ⟨(C1_textual_checks_first_match "/cog/preview.VRT" none probeVRT).1 (by decide),
   (C1_textual_checks_first_match "/cog/preview" (some "http://host/data.VRT")
      probeVRT).2.1 (by decide) (by decide)⟩

/-- C2: when both textual checks pass, `BlockVRTMiddleware.dispatch`
probes the lower-cased `url` parameter with `sharing=False`; if the
open succeeds with driver "VRT" the result is a 403 rejection with the
parameter-specific body; if the open succeeds with any other driver,
or fails for any reason, the request passes through to the
continuation — a probe failure never produces an error response. -/
theorem C2_probe_best_effort (path : String) (u : Option String)
    (probe : String → Bool → ProbeResult)
    (h1 : strContainsSub (lowerStr path) ".vrt" = false)
    (h2 : strContainsSub (lowerStr (u.getD "")) ".vrt" = false) :
    (probe (lowerStr (u.getD "")) false = .opened "VRT" →
      blockVRTDispatch path u probe =
        .response ⟨"VRT files are not supported in URL parameters.", 403, none⟩) ∧
    (∀ d, probe (lowerStr (u.getD "")) false = .opened d → d ≠ "VRT" →
      blockVRTDispatch path u probe = .passthrough) ∧
    (probe (lowerStr (u.getD "")) false = .failed →
      blockVRTDispatch path u probe = .passthrough) := by
  refine ⟨?_, ?_, ?_⟩
  · intro hp
    simp [blockVRTDispatch, h1, h2, hp]
  · intro d hp hd
    simp [blockVRTDispatch, h1, h2, hp, hd]
  · intro hp
    simp [blockVRTDispatch, h1, h2, hp]

/-- C2 witness: a non-VRT driver and a failing probe both pass through,
a successful probe reporting "VRT" is rejected; obtained by applying
`C2_probe_best_effort` at concrete inputs. -/
theorem C2_witness :
    blockVRTDispatch "/cog/preview" (some "http://host/data.tif") probeGTiff =
      .passthrough ∧
    blockVRTDispatch "/cog/preview" (some "http://unreachable-host/x") probeNever =
      .passthrough ∧
    blockVRTDispatch "/cog/preview" (some "http://host/data") probeVRT =
      .response ⟨"VRT files are not supported in URL parameters.", 403, none⟩ :=
  ⟨(C2_probe_best_effort "/cog/preview" (some "http://host/data.tif") probeGTiff
      (by decide) (by decide)).2.1 "GTiff" rfl (by decide),
   (C2_probe_best_effort "/cog/preview" (some "http://unreachable-host/x") probeNever
      (by decide) (by decide)).2.2 rfl,
   (C2_probe_best_effort "/cog/preview" (some "http://host/data") probeVRT
      (by decide) (by decide)).1 rfl⟩

/-- C6 counterexample: the rejection responses are built with starlette's
default `media_type=None` (`Response(content=..., status_code=403)`),
so they carry no Content-Type header at all — in particular not
`text/plain` as the claim states. Shown on the concrete request path
"/a.vrt". -/
theorem C6_counterexample :
    blockVRTDispatch "/a.vrt" none probeNever =
      .response ⟨"VRT files are not supported.", 403, none⟩ ∧
    responseContentType ⟨"VRT files are not supported.", 403, none⟩ = none ∧
    responseContentType ⟨"VRT files are not supported.", 403, none⟩ ≠
      some "text/plain" := by
  refine ⟨by decide, rfl, by decide⟩

/-- C6 amended: every rejection response produced by
`BlockVRTMiddleware.dispatch` is a synchronous HTTP 403 whose body is
exactly "VRT files are not supported." when the path check fired and
exactly "VRT files are not supported in URL parameters." for the
parameter-check and probe rejections, and which carries no
Content-Type header (the response is constructed without a media
type). -/
theorem C6_rejection_shape (path : String) (u : Option String)
    (probe : String → Bool → ProbeResult) (r : GuardResponse)
    (h : blockVRTDispatch path u probe = .response r) :
    r.status = 403 ∧ responseContentType r = none ∧
    (r.body = "VRT files are not supported." ∨
     r.body = "VRT files are not supported in URL parameters.") ∧
    (r.body = "VRT files are not supported." ↔
      strContainsSub (lowerStr path) ".vrt" = true) := by
  by_cases hp : strContainsSub (lowerStr path) ".vrt"
  · simp [blockVRTDispatch, hp] at h
    subst h
    refine ⟨rfl, rfl, Or.inl rfl, by simp [hp]⟩
  · by_cases hu : strContainsSub (lowerStr (u.getD "")) ".vrt"
    · simp [blockVRTDispatch, hp, hu] at h
      subst h
      refine ⟨rfl, rfl, Or.inr rfl, by simp [hp]⟩
    · rcases hpr : probe (lowerStr (u.getD "")) false with d | _
      · by_cases hd : d = "VRT"
        · simp [blockVRTDispatch, hp, hu, hpr, hd] at h
          subst h
          refine ⟨rfl, rfl, Or.inr rfl, by simp [hp]⟩
        · simp [blockVRTDispatch, hp, hu, hpr, hd] at h
      · simp [blockVRTDispatch, hp, hu, hpr] at h

/-- C6 witness: the parameter rejection at a concrete request,
obtained by applying `C6_rejection_shape`. -/
theorem C6_witness :
    (⟨"VRT files are not supported in URL parameters.", 403, none⟩ :
        GuardResponse).status = 403 ∧
    responseContentType
      ⟨"VRT files are not supported in URL parameters.", 403, none⟩ = none :=
  ⟨(C6_rejection_shape "/cog/preview" (some "http://h/a.vrt") probeNever
      ⟨"VRT files are not supported in URL parameters.", 403, none⟩ (by decide)).1,
   (C6_rejection_shape "/cog/preview" (some "http://h/a.vrt") probeNever
      ⟨"VRT files are not supported in URL parameters.", 403, none⟩ (by decide)).2.1⟩

theorem pyTruthy_eq_false_iff (o : Option String) :
    pyTruthy o = false ↔ o = none ∨ o = some "" := by
  cases o with
  | none => simp [pyTruthy]
  | some s =>
    cases s with
    | mk data =>
      simp only [pyTruthy, Bool.not_eq_false', List.isEmpty_iff]
      constructor
      · intro h
        subst h
        right
        rfl
      · rintro (h | h)
        · exact absurd h (by simp)
        · have h2 : ({ data := data } : String) = "" := by
            injection h
          simpa using congrArg String.data h2

theorem headerGet_setHeader_self (hs : List (String × String)) (name v : String)
    (hidem : lowerStr (lowerStr name) = lowerStr name) :
    headerGet (setHeader hs name v) name = some v := by
  unfold setHeader
  induction hs with
  | nil => simp [setHeaderAux, headerGet, List.find?, hidem]
  | cons kv rest ih =>
    by_cases hk : lowerStr kv.1 == lowerStr name
    · simp [setHeaderAux, hk, headerGet, List.find?, hidem]
    · simp only [setHeaderAux, hk, if_neg]
      simp only [headerGet, List.find?, hk] at ih ⊢
      simpa using ih

theorem headerGet_eq_none_iff (hs : List (String × String)) (name : String) :
    headerGet hs name = none ↔
      ∀ kv ∈ hs, (lowerStr kv.1 == lowerStr name) = false := by
  simp [headerGet, List.find?_eq_none]

theorem C3_counterexample :
    headerGet [("Cache-Control", "")] "Cache-Control" = some "" ∧
    cacheControlSend ⟨some "public", 500, []⟩ "GET" "/x"
        ⟨200, [("Cache-Control", "")]⟩ =
      ⟨200, [("cache-control", "public")]⟩ ∧
    cacheControlSend ⟨some "public", 500, []⟩ "GET" "/x"
        ⟨200, [("Cache-Control", "")]⟩ ≠
      ⟨200, [("Cache-Control", "")]⟩ := by
  refine ⟨by decide, by decide, by decide⟩

theorem cacheControlSend_eq_ite (cfg : CCConfig) (cc method path : String)
    (m : StartMessage) (hcc : cfg.cachecontrol = some cc) (hne : cc ≠ "") :
    cacheControlSend cfg method path m =
      (if ccEligible cfg method path m then
        { m with headers := setHeader m.headers "Cache-Control" cc }
      else m) := by
  have hccB : pyTruthy cfg.cachecontrol = true := by
    rw [hcc]
    cases cc with
    | mk data =>
      simp only [pyTruthy, Bool.not_eq_true']
      rw [Bool.eq_false_iff]
      intro h
      exact hne (by simpa using congrArg String.mk (List.isEmpty_iff.mp h))
  have hmain : cacheControlSend cfg method path m =
      (if ccEligible cfg method path m then
        { m with headers := setHeader m.headers "Cache-Control" cc }
      else m) := by
    unfold cacheControlSend
    rw [hcc]
    by_cases hel : ccEligible cfg method path m
    · obtain ⟨h1, h2, h3, h4⟩ := hel
      have hget : pyTruthy (headerGet m.headers "Cache-Control") = false :=
        (pyTruthy_eq_false_iff _).mpr h1
      have hmeth : (method == "HEAD" || method == "GET") = true := by
        rcases h2 with h | h <;> simp [h]
      have hexc : cfg.exclude_path.any (fun p => reMatchLiteral p path) = false := by
        rw [Bool.eq_false_iff]
        intro hany
        obtain ⟨p, hp, hmatch⟩ := List.any_eq_true.mp hany
        exact h4 p hp (List.isPrefixOf_iff_prefix.mp hmatch)
      rw [hcc] at hccB
      simp [hccB, hget, hmeth, h3, hexc,
        if_pos (show ccEligible cfg method path m from ⟨h1, h2, h3, h4⟩)]
    · rw [if_neg hel]
      by_cases hget : pyTruthy (headerGet m.headers "Cache-Control")
      · rw [hcc] at hccB
        simp [hget]
      · by_cases hmeth : (method == "HEAD" || method == "GET")
        · by_cases hstat : m.status < cfg.cachecontrol_max_http_code
          · by_cases hexc : cfg.exclude_path.any (fun p => reMatchLiteral p path)
            · simp [hexc]
            · exfalso
              apply hel
              refine ⟨(pyTruthy_eq_false_iff _).mp (by simpa using hget), ?_,
                hstat, ?_⟩
              · rcases Bool.or_eq_true _ _ |>.mp hmeth with h | h
                · exact Or.inr (by simpa using h)
                · exact Or.inl (by simpa using h)
              · intro p hp hpre
                exact absurd (List.any_eq_true.mpr
                  ⟨p, hp, List.isPrefixOf_iff_prefix.mpr hpre⟩) (by simpa using hexc)
          · simp [hstat]
        · simp at hmeth
          simp [hmeth]
  exact hmain

theorem C3_first_writer_wins (cfg : CCConfig) (cc method path : String)
    (m : StartMessage) (hcc : cfg.cachecontrol = some cc) (hne : cc ≠ "") :
    cacheControlSend cfg method path m =
      (if ccEligible cfg method path m then
        { m with headers := setHeader m.headers "Cache-Control" cc }
      else m) ∧
    (ccEligible cfg method path m →
      headerGet (cacheControlSend cfg method path m).headers "Cache-Control" =
        some cc) := by
  refine ⟨cacheControlSend_eq_ite cfg cc method path m hcc hne, fun hel => ?_⟩
  rw [cacheControlSend_eq_ite cfg cc method path m hcc hne, if_pos hel]
  exact headerGet_setHeader_self m.headers "Cache-Control" cc (by decide)

theorem C3_witness :
    headerGet (cacheControlSend ⟨some "public", 500, ["/healthz"]⟩ "GET" "/x"
        ⟨200, []⟩).headers "Cache-Control" = some "public" :=
  (C3_first_writer_wins ⟨some "public", 500, ["/healthz"]⟩ "public" "GET" "/x"
      ⟨200, []⟩ rfl (by decide)).2 (by decide)

theorem C10_exclusion_anchored (cfg : CCConfig) (cc path : String)
    (m : StartMessage) (hcc : cfg.cachecontrol = some cc) (hne : cc ≠ "")
    (hm : headerGet m.headers "Cache-Control" = none)
    (hs : m.status < cfg.cachecontrol_max_http_code) :
    headerGet (cacheControlSend cfg "GET" path m).headers "Cache-Control" = none ↔
      ∃ p ∈ cfg.exclude_path, p.data <+: path.data := by
  rw [cacheControlSend_eq_ite cfg cc "GET" path m hcc hne]
  by_cases hel : ccEligible cfg "GET" path m
  · rw [if_pos hel]
    obtain ⟨h1, h2, h3, h4⟩ := hel
    constructor
    · intro h
      rw [headerGet_setHeader_self m.headers "Cache-Control" cc (by decide)] at h
      exact absurd h (Option.some_ne_none cc)
    · rintro ⟨p, hp, hpre⟩
      exact absurd hpre (h4 p hp)
  · rw [if_neg hel]
    have hex : ∃ p ∈ cfg.exclude_path, p.data <+: path.data := by
      by_contra hco
      push_neg at hco
      exact hel ⟨Or.inl hm, Or.inl rfl, hs, hco⟩
    exact iff_of_true hm hex

theorem C10_witness :
    headerGet (cacheControlSend ⟨some "public", 500, ["/healthz"]⟩ "GET"
        "/healthzz" ⟨200, []⟩).headers "Cache-Control" = none ∧
    ¬ headerGet (cacheControlSend ⟨some "public", 500, ["/healthz"]⟩ "GET"
        "/v1/healthz" ⟨200, []⟩).headers "Cache-Control" = none :=
  ⟨(C10_exclusion_anchored ⟨some "public", 500, ["/healthz"]⟩ "public" "/healthzz"
      ⟨200, []⟩ rfl (by decide) (by decide) (by decide)).mpr (by decide),
   fun h => absurd ((C10_exclusion_anchored ⟨some "public", 500, ["/healthz"]⟩
      "public" "/v1/healthz" ⟨200, []⟩ rfl (by decide) (by decide) (by decide)).mp h)
      (by decide)⟩

theorem all_plainChar_not_mem (l : List Char) (h : l.all plainChar = true) :
    '&' ∉ l ∧ '=' ∉ l ∧ '%' ∉ l ∧ '+' ∉ l := by
  refine ⟨fun hm => ?_, fun hm => ?_, fun hm => ?_, fun hm => ?_⟩ <;>
    simpa [plainChar] using List.all_eq_true.mp h _ hm

theorem pctDecodeF_id (fuel : Nat) (s : List Char) (h : '%' ∉ s) :
    pctDecodeF fuel s = s := by
  induction fuel generalizing s with
  | zero => rfl
  | succ fuel ih =>
    cases s with
    | nil => rfl
    | cons c rest =>
      have hc : c ≠ '%' := fun hcc => h (hcc ▸ List.mem_cons_self c rest)
      have hrest : '%' ∉ rest := fun hm => h (List.mem_cons_of_mem c hm)
      simp [pctDecodeF, hc, ih rest hrest]

theorem pctDecode_id (s : List Char) (h : '%' ∉ s) : pctDecode s = s :=
  pctDecodeF_id _ s h

theorem plusToSpace_id (s : List Char) (h : '+' ∉ s) : plusToSpace s = s := by
  induction s with
  | nil => rfl
  | cons c rest ih =>
    have hc : c ≠ '+' := fun hcc => h (hcc ▸ List.mem_cons_self c rest)
    have hrest : '+' ∉ rest := fun hm => h (List.mem_cons_of_mem c hm)
    simp only [plusToSpace, List.map_cons, if_neg hc]
    simpa [plusToSpace] using ih hrest

theorem unquotePlus_id (s : String) (h1 : '%' ∉ s.data) (h2 : '+' ∉ s.data) :
    unquotePlus s = s := by
  unfold unquotePlus
  rw [plusToSpace_id _ h2, pctDecode_id _ h1]

theorem splitFirstEq_append (k v : List Char) (h : '=' ∉ k) :
    splitFirstEq (k ++ '=' :: v) = (k, some v) := by
  induction k with
  | nil => simp [splitFirstEq]
  | cons c rest ih =>
    have hc : c ≠ '=' := fun hcc => h (hcc ▸ List.mem_cons_self c rest)
    have hrest : '=' ∉ rest := fun hm => h (List.mem_cons_of_mem c hm)
    simp [splitFirstEq, hc, ih hrest]

theorem splitAmp_no_amp (s : List Char) (h : '&' ∉ s) : splitAmp s = [s] := by
  induction s with
  | nil => rfl
  | cons c rest ih =>
    have hc : c ≠ '&' := fun hcc => h (hcc ▸ List.mem_cons_self c rest)
    have hrest : '&' ∉ rest := fun hm => h (List.mem_cons_of_mem c hm)
    simp [splitAmp, hc, ih hrest]

theorem splitAmp_append (s r : List Char) (h : '&' ∉ s) :
    splitAmp (s ++ '&' :: r) = s :: splitAmp r := by
  induction s with
  | nil => simp [splitAmp]
  | cons c rest ih =>
    have hc : c ≠ '&' := fun hcc => h (hcc ▸ List.mem_cons_self c rest)
    have hrest : '&' ∉ rest := fun hm => h (List.mem_cons_of_mem c hm)
    simp [splitAmp, hc, ih hrest]

theorem splitAmp_joinSegs (segs : List (List Char)) (hne : segs ≠ [])
    (h : ∀ s ∈ segs, '&' ∉ s) : splitAmp (joinSegs segs) = segs := by
  induction segs with
  | nil => exact absurd rfl hne
  | cons s rest ih =>
    cases rest with
    | nil => simpa [joinSegs] using splitAmp_no_amp s (h s (List.mem_cons_self s []))
    | cons s2 t =>
      have hj : joinSegs (s :: s2 :: t) = s ++ '&' :: joinSegs (s2 :: t) := rfl
      rw [hj, splitAmp_append s _ (h s (List.mem_cons_self s (s2 :: t))),
        ih (by simp) (fun x hx => h x (List.mem_cons_of_mem s hx))]

theorem parsePairSeg_render (k v : String)
    (hk : k.data.all plainChar = true) (hv : v.data.all plainChar = true) :
    parsePairSeg (k.data ++ '=' :: v.data) = some (k, v) := by
  obtain ⟨_, hk2, hk3, hk4⟩ := all_plainChar_not_mem _ hk
  obtain ⟨_, _, hv3, hv4⟩ := all_plainChar_not_mem _ hv
  have hne : (k.data ++ '=' :: v.data).isEmpty = false := by
    simp
  unfold parsePairSeg
  rw [hne]
  simp only [Bool.false_eq_true, if_false, splitFirstEq_append _ _ hk2]
  rw [show (String.mk k.data) = k from rfl]
  simp only [Option.getD_some]
  rw [show (String.mk v.data) = v from rfl]
  rw [unquotePlus_id k hk3 hk4, unquotePlus_id v hv3 hv4]

theorem filterMap_eq_self {α : Type} (f : α → Option α) (l : List α)
    (h : ∀ x ∈ l, f x = some x) : l.filterMap f = l := by
  induction l with
  | nil => rfl
  | cons x t ih =>
    rw [List.filterMap_cons, h x (List.mem_cons_self x t),
      ih (fun y hy => h y (List.mem_cons_of_mem x hy))]

theorem parseQsl_joinPairs (ps : List (String × String))
    (h : ∀ kv ∈ ps, kv.1.data.all plainChar = true ∧ kv.2.data.all plainChar = true) :
    parseQsl (joinPairs ps) = ps := by
  cases ps with
  | nil => rfl
  | cons p t =>
    unfold parseQsl joinPairs
    rw [show (String.mk (joinSegs ((p :: t).map
        (fun kv => kv.1.data ++ '=' :: kv.2.data)))).data =
      joinSegs ((p :: t).map (fun kv => kv.1.data ++ '=' :: kv.2.data)) from rfl]
    rw [splitAmp_joinSegs _ (by simp)]
    · rw [List.filterMap_map]
      refine filterMap_eq_self _ _ (fun kv hkv => ?_)
      obtain ⟨h1, h2⟩ := h kv hkv
      exact parsePairSeg_render kv.1 kv.2 h1 h2
    · intro s hs
      simp only [List.mem_map] at hs
      obtain ⟨kv, hkv, rfl⟩ := hs
      obtain ⟨ha1, _, _, _⟩ := all_plainChar_not_mem _ (h kv hkv).1
      obtain ⟨hb1, _, _, _⟩ := all_plainChar_not_mem _ (h kv hkv).2
      intro hm
      rcases List.mem_append.mp hm with hm | hm
      · exact ha1 hm
      · rcases List.mem_cons.mp hm with hm | hm
        · exact absurd hm (by decide)
        · exact hb1 hm

theorem plainChar_toLower (c : Char) (h : plainChar c = true) :
    plainChar (Char.toLower c) = true := by
  unfold Char.toLower
  dsimp only
  split
  · next hc =>
    obtain ⟨h1, h2⟩ := hc
    set n := c.toNat with hn
    interval_cases n <;> decide
  · exact h

theorem latin1Char_toLower (c : Char) (h : latin1Char c = true) :
    latin1Char (Char.toLower c) = true := by
  unfold Char.toLower
  dsimp only
  split
  · next hc =>
    obtain ⟨h1, h2⟩ := hc
    set n := c.toNat with hn
    interval_cases n <;> decide
  · exact h

theorem fold_data (ps : List (String × String)) (s : String) :
    (ps.foldl (fun acc kv => acc ++ lowerStr kv.1 ++ "=" ++ kv.2 ++ "&") s).data =
      s.data ++ (ps.map
        (fun kv => ((lowerStr kv.1).data ++ '=' :: kv.2.data) ++ ['&'])).flatten := by
  induction ps generalizing s with
  | nil => simp
  | cons kv t ih =>
    simp only [List.foldl_cons, List.map_cons, List.flatten_cons]
    rw [ih]
    simp [String.data_append, List.append_assoc]

theorem flatten_chunks_dropLast (segs : List (List Char)) :
    ((segs.map (fun s => s ++ ['&'])).flatten).dropLast = joinSegs segs := by
  induction segs with
  | nil => rfl
  | cons s t ih =>
    cases t with
    | nil => simp [joinSegs, List.dropLast_concat]
    | cons s2 t2 =>
      have hne : ((s2 :: t2).map (fun s => s ++ ['&'])).flatten ≠ [] := by
        simp
      rw [List.map_cons, List.flatten_cons, List.dropLast_append_of_ne_nil _ hne, ih]
      simp [joinSegs, List.append_assoc]

theorem lowerCaseQueryString_eq_joinPairs (qs : String) :
    lowerCaseQueryString qs =
      joinPairs ((parseQsl qs).map (fun kv => (lowerStr kv.1, kv.2))) := by
  unfold lowerCaseQueryString joinPairs
  have h1 : ((parseQsl qs).foldl
      (fun acc kv => acc ++ lowerStr kv.1 ++ "=" ++ kv.2 ++ "&") "").data =
      (((parseQsl qs).map (fun kv => (lowerStr kv.1).data ++ '=' :: kv.2.data)).map
        (fun s => s ++ ['&'])).flatten := by
    rw [fold_data]
    simp only [String.data_append, List.map_map, Function.comp]
    rw [List.nil_append]
    exact congrArg List.flatten
      (List.map_congr_left (fun kv _ => by simp [List.append_assoc]))
  rw [show (String.mk ((parseQsl qs).foldl
      (fun acc kv => acc ++ lowerStr kv.1 ++ "=" ++ kv.2 ++ "&") "").data.dropLast) =
      String.mk ((((parseQsl qs).map
        (fun kv => (lowerStr kv.1).data ++ '=' :: kv.2.data)).map
        (fun s => s ++ ['&'])).flatten.dropLast) from by rw [h1]]
  rw [flatten_chunks_dropLast]
  congr 2
  rw [List.map_map]
  exact List.map_congr_left (fun kv _ => rfl)

theorem joinSegs_all (P : Char → Bool) (hamp : P '&' = true) (segs : List (List Char))
    (h : ∀ s ∈ segs, s.all P = true) : (joinSegs segs).all P = true := by
  induction segs with
  | nil => rfl
  | cons s t ih =>
    cases t with
    | nil => simpa [joinSegs] using h s (List.mem_cons_self s [])
    | cons s2 t2 =>
      have hj : joinSegs (s :: s2 :: t2) = s ++ '&' :: joinSegs (s2 :: t2) := rfl
      rw [hj]
      simp [List.all_append, h s (List.mem_cons_self s (s2 :: t2)), hamp,
        ih (fun x hx => h x (List.mem_cons_of_mem s hx))]

/-- C4 counterexample: for the raw query string `a=1%262` (the single
pair `a ↦ 1&2`), the middleware emits `a=1&2` — the percent-escape is
not re-applied, so downstream parsing of the rewritten string yields
`[a ↦ 1, 2 ↦ ""]` instead of the original pair with lower-cased key:
the "re-encoded using the same percent-encoding rules" part of the
claim fails, and the value is not left untouched. -/
theorem C4_counterexample :
    parseQsl "a=1%262" = [("a", "1&2")] ∧
    lowerCaseQueryString "a=1%262" = "a=1&2" ∧
    parseQsl (lowerCaseQueryString "a=1%262") = [("a", "1"), ("2", "")] ∧
    parseQsl (lowerCaseQueryString "a=1%262") ≠
      (parseQsl "a=1%262").map (fun kv => (lowerStr kv.1, kv.2)) := by
  refine ⟨by decide, by decide, by decide, by decide⟩

/-- C4 amended: the middleware rewrites the raw query string by
lower-casing every decoded key and joining `key=value` pairs with `&`
(duplicates and order preserved, no trailing separator), but performs
no percent re-encoding of the decoded keys and values; consequently
the round trip (downstream parsing yields the original pairs with
lower-cased keys) holds when the decoded keys and values contain none
of the reserved characters `&`, `=`, `%`, `+`; the result is stored
latin-1-encoded, which succeeds whenever all characters lie below
256. -/
theorem C4_lowercase_rewrite (qs : String)
    (hplain : ∀ kv ∈ parseQsl qs,
      kv.1.data.all plainChar = true ∧ kv.2.data.all plainChar = true) :
    lowerCaseQueryString qs =
      joinPairs ((parseQsl qs).map (fun kv => (lowerStr kv.1, kv.2))) ∧
    parseQsl (lowerCaseQueryString qs) =
      (parseQsl qs).map (fun kv => (lowerStr kv.1, kv.2)) ∧
    ((∀ kv ∈ parseQsl qs,
        kv.1.data.all latin1Char = true ∧ kv.2.data.all latin1Char = true) →
      lowerCaseQueryBytes qs =
        some ((lowerCaseQueryString qs).data.map Char.toNat)) := by
  refine ⟨lowerCaseQueryString_eq_joinPairs qs, ?_, ?_⟩
  · rw [lowerCaseQueryString_eq_joinPairs qs]
    apply parseQsl_joinPairs
    intro kv hkv
    simp only [List.mem_map] at hkv
    obtain ⟨kv0, hkv0, rfl⟩ := hkv
    obtain ⟨h1, h2⟩ := hplain kv0 hkv0
    refine ⟨?_, h2⟩
    show ((kv0.1.data.map Char.toLower).all plainChar) = true
    rw [List.all_map]
    exact List.all_eq_true.mpr
      (fun c hc => plainChar_toLower c (List.all_eq_true.mp h1 c hc))
  · intro hlat
    have hall : ((lowerCaseQueryString qs).data.all latin1Char) = true := by
      rw [lowerCaseQueryString_eq_joinPairs qs]
      show ((joinSegs _).all latin1Char) = true
      apply joinSegs_all latin1Char (by decide)
      intro s hs
      simp only [List.mem_map] at hs
      obtain ⟨kv0, hkv0, rfl⟩ := hs
      obtain ⟨kv1, hkv1, rfl⟩ := hkv0
      obtain ⟨h1, h2⟩ := hlat kv1 hkv1
      rw [List.all_append]
      refine Bool.and_intro ?_ ?_
      · show ((kv1.1.data.map Char.toLower).all latin1Char) = true
        rw [List.all_map]
        exact List.all_eq_true.mpr
          (fun c hc => latin1Char_toLower c (List.all_eq_true.mp h1 c hc))
      · rw [List.all_cons]
        exact Bool.and_intro (by decide) h2
    unfold lowerCaseQueryBytes latin1Encode
    rw [show ((lowerCaseQueryString qs).data.all fun c => decide (c.toNat < 256)) =
      ((lowerCaseQueryString qs).data.all latin1Char) from rfl, hall]
    rfl

/-- C4 witness: the spec's own example query, rewritten so that parsing
by lower-case key names succeeds with values untouched, and stored as
latin-1 bytes; obtained by applying `C4_lowercase_rewrite`. -/
theorem C4_witness :
    parseQsl (lowerCaseQueryString "Bbox=1,2,3,4&Url=http://x") =
      [("bbox", "1,2,3,4"), ("url", "http://x")] ∧
    lowerCaseQueryBytes "Bbox=1,2,3,4&Url=http://x" =
      some ((lowerCaseQueryString "Bbox=1,2,3,4&Url=http://x").data.map Char.toNat) :=
  ⟨((C4_lowercase_rewrite "Bbox=1,2,3,4&Url=http://x" (by decide)).2.1).trans
      (by decide),
   (C4_lowercase_rewrite "Bbox=1,2,3,4&Url=http://x" (by decide)).2.2 (by decide)⟩

theorem pyTruthy_some_iff (s : String) : pyTruthy (some s) = true ↔ s ≠ "" := by
  constructor
  · intro h hs
    subst hs
    simp [pyTruthy] at h
  · intro h
    cases hp : pyTruthy (some s)
    · rcases (pyTruthy_eq_false_iff _).mp hp with h' | h'
      · exact absurd h' (by simp)
      · injection h' with h''
        exact absurd h'' h
    · rfl

/-- C5: `TotalTimeMiddleware` appends `total;dur=<ms>` to Server-Timing,
comma-joining after an existing non-empty value rather than overwriting
it; the `dur` value is the elapsed time in milliseconds rounded to two
decimal places (an integer multiple of 1/100 within 1/200 of the exact
value); the status code is untouched. -/
theorem C5_server_timing_append (t0 t1 : ℚ) (fmt : ℚ → String) (m : StartMessage) :
    (∀ t, headerGet m.headers "Server-Timing" = some t → t ≠ "" →
      headerGet (totalTimeSend t0 t1 fmt m).headers "Server-Timing" =
        some (t ++ ", " ++ appTimeEntry fmt t0 t1)) ∧
    (headerGet m.headers "Server-Timing" = none →
      headerGet (totalTimeSend t0 t1 fmt m).headers "Server-Timing" =
        some (appTimeEntry fmt t0 t1)) ∧
    (∃ n : ℤ, durMs t0 t1 = (n : ℚ) / 100) ∧
    |durMs t0 t1 - (t1 - t0) * 1000| ≤ 1 / 200 ∧
    (totalTimeSend t0 t1 fmt m).status = m.status := by
  refine ⟨?_, ?_, ?_, ?_, ?_⟩
  · intro t ht hne
    unfold totalTimeSend
    dsimp only
    rw [ht, (pyTruthy_some_iff t).mpr hne]
    simp only [if_true, Option.getD_some]
    exact headerGet_setHeader_self m.headers "Server-Timing" _ (by decide)
  · intro ht
    unfold totalTimeSend
    dsimp only
    rw [ht]
    simp only [pyTruthy, Bool.false_eq_true, if_false]
    exact headerGet_setHeader_self m.headers "Server-Timing" _ (by decide)
  · exact ⟨round (((t1 - t0) * 1000) * 100), rfl⟩
  · have h := abs_sub_round (((t1 - t0) * 1000) * 100 : ℚ)
    have heq : durMs t0 t1 - (t1 - t0) * 1000 =
        (((round (((t1 - t0) * 1000) * 100) : ℤ) : ℚ) - ((t1 - t0) * 1000) * 100)
          / 100 := by
      unfold durMs round2
      ring
    have habs : |(((round (((t1 - t0) * 1000) * 100) : ℤ) : ℚ) -
        ((t1 - t0) * 1000) * 100)| ≤ 1 / 2 := by
      rw [abs_sub_comm]
      exact h
    rw [heq, abs_div, show |(100 : ℚ)| = 100 from by norm_num]
    linarith
  · simp [totalTimeSend]

/-- C5 witness: concrete clock readings one second apart, with and
without an inner Server-Timing entry; obtained by applying
`C5_server_timing_append`. -/
theorem C5_witness :
    headerGet (totalTimeSend 0 1 fmtConst
        ⟨200, [("Server-Timing", "inner;dur=5")]⟩).headers "Server-Timing" =
      some "inner;dur=5, total;dur=1000.0" ∧
    headerGet (totalTimeSend 0 1 fmtConst ⟨200, []⟩).headers "Server-Timing" =
      some "total;dur=1000.0" := by
  constructor
  · have h := (C5_server_timing_append 0 1 fmtConst
      ⟨200, [("Server-Timing", "inner;dur=5")]⟩).1 "inner;dur=5" (by decide) (by decide)
    rw [h]
    decide
  · have h := (C5_server_timing_append 0 1 fmtConst ⟨200, []⟩).2.1 (by decide)
    rw [h]
    decide

/-- C7: the code reads `time.time()` — the system wall clock, not a
monotonic clock — so a backwards clock step between request entry
(t0 = 10 s) and response start (t1 = 9 s) yields a negative reported
duration of -1000 ms, contradicting the claim that the duration is
always non-negative. -/
theorem C7_wall_clock_negative :
    durMs 10 9 = -1000 ∧ durMs 10 9 < 0 := by
  have h1 : durMs 10 9 = -1000 := by
    unfold durMs round2
    rw [show (((9 : ℚ) - 10) * 1000) * 100 = ((-100000 : ℤ) : ℚ) from by norm_num,
      round_intCast]
    norm_num
  exact ⟨h1, by rw [h1]; norm_num⟩

/-- C8: `LoggerMiddleware` returns exactly what the inner app returns
for the very same scope, and the result does not depend on the logging
sink — an unavailable (failing) sink cannot change or fail the
request. -/
theorem C8_logging_transparent {σ ρ : Type} (cfg : LogConfig)
    (sink sink2 : String → SinkResult) (urlOf qsOf hdrOf : σ → String)
    (qsNonEmpty : σ → Bool) (app : σ → ρ) (scope : σ) :
    loggerMiddleware cfg sink urlOf qsOf hdrOf qsNonEmpty app scope = app scope ∧
    loggerMiddleware cfg sink urlOf qsOf hdrOf qsNonEmpty app scope =
      loggerMiddleware cfg sink2 urlOf qsOf hdrOf qsNonEmpty app scope :=
  ⟨rfl, rfl⟩

/-- C9: a probe failure — of any kind, including a timeout error raised
below the middleware — is suppressed and the request passes through;
the code itself imposes no timeout bound around `rasterio.open`. -/
theorem C9_probe_failure_allows :
    blockVRTDispatch "/tiles/1/2/3" (some "http://slow-host/data") probeNever =
      .passthrough := by decide
